import Mathlib

/-!
Verification of the Hampel sliding-window outlier filter (src/lib.rs).

The element type T (f32 or f64 in the source) is modelled by ℚ: exact
arithmetic on non-NaN values.  Every sort in the source is an in-place,
stable, ascending insertion sort over values of a linear order, so the
sorted array is the unique ascending reordering of the window multiset;
it is embedded as List.insertionSort.  The fallible constructor (an
assert in the source) is embedded as an Option.  The uninitialized
working_array of the source is seeded with zeros here; the frame
theorems show that its incoming contents never influence a call.
-/

namespace Hampel

/-- State of Window<T, WINDOW_SIZE>: the circular sample buffer, the
working_array sort scratch (field working), the index of the oldest
sample (next slot to overwrite), and the precomputed threshold
coefficient coef. -/
structure Window (N : Nat) where
  window : List ℚ
  working : List ℚ
  oldest : Nat
  coef : ℚ
deriving DecidableEq

/-- Ascending insertion sort; embeds the in-place insertion sort loop of
get_median (stable, ascending: swap while the left neighbour is strictly
greater). -/
def sortAsc (l : List ℚ) : List ℚ := l.insertionSort (· ≤ ·)

/-- Embeds fn get_median: sort the working array ascending, return the
element at index WINDOW_SIZE / 2 together with the sorted array (the
source mutates working_array in place; the sorted array is threaded
explicitly here). -/
def get_median (N : Nat) (l : List ℚ) : ℚ × List ℚ :=
  let s := sortAsc l
  (s.getD (N / 2) 0, s)

/-- Embeds Window::new: requires WINDOW_SIZE >= 3 (assert, modelled as
Option.none on violation), fills the window with init_val, sets
oldest = 0 and coef = 1.4826 * n_sigma. -/
def Window.new (N : Nat) (init_val n_sigma : ℚ) : Option (Window N) :=
  if 3 ≤ N then
    some ⟨List.replicate N init_val, List.replicate N 0, 0, (1.4826 : ℚ) * n_sigma⟩
  else
    none

/-- Embeds Window::update in the default (median-substitution) build:
write x over the oldest slot, advance oldest mod N, sort a copy of the
window to get the median w0, replace the sorted copy by absolute
deviations from w0, sort again to get the MAD s0, then return x if
it is an inlier and w0 otherwise.  The state mutations happen in both
branches, exactly as in the source. -/
def update {N : Nat} (w : Window N) (x : ℚ) : ℚ × Window N :=
  let window1 := w.window.set w.oldest x
  let oldest1 := (w.oldest + 1) % N
  let m1 := get_median N window1
  let w0 := m1.1
  let working2 := m1.2.map (fun v => |v - w0|)
  let m2 := get_median N working2
  let s0 := m2.1
  let st : Window N := ⟨window1, m2.2, oldest1, w.coef⟩
  (if |x - w0| ≤ w.coef * s0 then x else w0, st)

/-- Closed form (WINDOW_SIZE - 2) * 0.5 for the mean of the x
coordinates 0, 1, ..., WINDOW_SIZE - 2 used by fn extrapolation
(natural subtraction, as in the source usize arithmetic). -/
def regressionMuX (N : Nat) : ℚ := ((N - 2 : Nat) : ℚ) * (1 / 2)

/-- The denominator accumulated by the extrapolation loop: the sum of
squared centered x coordinates over the N - 1 regression points. -/
def regressionDenom (N : Nat) : ℚ :=
  ∑ i in Finset.range (N - 1), (((i : ℚ) - regressionMuX N) * ((i : ℚ) - regressionMuX N))

/-- Embeds fn extrapolation (feature extrapolation): least-squares line
through the N - 1 samples window[(oldest + i) % N], i = 0..N-2 (oldest
first, the just-written sample excluded), evaluated at x = N - 1. -/
def extrapolation {N : Nat} (w : Window N) : ℚ :=
  let mu_x := regressionMuX N
  let mu_y := (∑ i in Finset.range (N - 1), w.window.getD ((w.oldest + i) % N) 0) /
    ((N - 1 : Nat) : ℚ)
  let numer := ∑ i in Finset.range (N - 1),
    (((i : ℚ) - mu_x) * (w.window.getD ((w.oldest + i) % N) 0 - mu_y))
  let a := numer / regressionDenom N
  let b := mu_y - a * mu_x
  a * ((N - 1 : Nat) : ℚ) + b

/-- Embeds Window::update in the extrapolation build: identical to
update except that an outlier is replaced by the linear extrapolation
computed on the mutated state. -/
def updateExtrap {N : Nat} (w : Window N) (x : ℚ) : ℚ × Window N :=
  let window1 := w.window.set w.oldest x
  let oldest1 := (w.oldest + 1) % N
  let m1 := get_median N window1
  let w0 := m1.1
  let working2 := m1.2.map (fun v => |v - w0|)
  let m2 := get_median N working2
  let s0 := m2.1
  let st : Window N := ⟨window1, m2.2, oldest1, w.coef⟩
  (if |x - w0| ≤ w.coef * s0 then x else extrapolation st, st)

/-- Feed a list of samples through update (default build), keeping the
final state. -/
def feedList {N : Nat} (w : Window N) : List ℚ → Window N
  | [] => w
  | x :: xs => feedList (update w x).2 xs

/-- Feed a list of samples through updateExtrap, keeping the final
state. -/
def feedListExtrap {N : Nat} (w : Window N) : List ℚ → Window N
  | [] => w
  | x :: xs => feedListExtrap (updateExtrap w x).2 xs

/-- Feed the constant v through update k times. -/
def feedConst {N : Nat} (w : Window N) (v : ℚ) : Nat → Window N
  | 0 => w
  | k + 1 => (update (feedConst w v k) v).2

/-- The window median in the vocabulary of the specification: the
element at index N / 2 of the ascending sort of the window contents
after x has been written over the oldest slot. -/
def w0val {N : Nat} (w : Window N) (x : ℚ) : ℚ :=
  (sortAsc (w.window.set w.oldest x)).getD (N / 2) 0

/-- The MAD in the vocabulary of the specification: the element at
index N / 2 of the ascending sort of the absolute deviations of the
(post-write) window samples from the median w0val. -/
def s0val {N : Nat} (w : Window N) (x : ℚ) : ℚ :=
  (sortAsc ((w.window.set w.oldest x).map (fun v => |v - w0val w x|))).getD (N / 2) 0

/-- The N - 1 prior samples in chronological order (oldest first), read
off a post-update state the way fn extrapolation reads them. -/
def priorSamples {N : Nat} (w : Window N) : List ℚ :=
  (List.range (N - 1)).map (fun i => w.window.getD ((w.oldest + i) % N) 0)

/-- Written from the specification text of the extrapolation fallback,
for comparison with the source embedding: simple centered least-squares
regression of ys against x coordinates 0, 1, ..., ys.length - 1, with
both means written as plain averages, evaluated one step ahead at
x = ys.length. -/
def leastSquaresPredict (ys : List ℚ) : ℚ :=
  let n := ys.length
  let muX := (∑ i in Finset.range n, (i : ℚ)) / (n : ℚ)
  let muY := (∑ i in Finset.range n, ys.getD i 0) / (n : ℚ)
  let a := (∑ i in Finset.range n, (((i : ℚ) - muX) * (ys.getD i 0 - muY))) /
    (∑ i in Finset.range n, (((i : ℚ) - muX) * ((i : ℚ) - muX)))
  let b := muY - a * muX
  a * (n : ℚ) + b

/-! Basic facts about the sort embedding. -/

lemma sortAsc_perm (l : List ℚ) : (sortAsc l).Perm l :=
  List.perm_insertionSort _ l

lemma sortAsc_sorted (l : List ℚ) : List.Sorted (· ≤ ·) (sortAsc l) :=
  List.sorted_insertionSort _ l

lemma sortAsc_length (l : List ℚ) : (sortAsc l).length = l.length :=
  (sortAsc_perm l).length_eq

lemma sortAsc_congr_perm {l₁ l₂ : List ℚ} (h : l₁.Perm l₂) : sortAsc l₁ = sortAsc l₂ :=
  List.eq_of_perm_of_sorted ((sortAsc_perm l₁).trans (h.trans (sortAsc_perm l₂).symm))
    (sortAsc_sorted l₁) (sortAsc_sorted l₂)

lemma sortAsc_map_sortAsc (f : ℚ → ℚ) (l : List ℚ) :
    sortAsc ((sortAsc l).map f) = sortAsc (l.map f) :=
  sortAsc_congr_perm ((sortAsc_perm l).map f)

/-! Characterization of update in the vocabulary of the specification. -/

lemma update_fst {N : Nat} (w : Window N) (x : ℚ) :
    (update w x).1 = if |x - w0val w x| ≤ w.coef * s0val w x then x else w0val w x := by
  simp only [update, get_median, w0val, s0val]
  rw [sortAsc_map_sortAsc]

lemma update_snd_window {N : Nat} (w : Window N) (x : ℚ) :
    (update w x).2.window = w.window.set w.oldest x := rfl

lemma update_snd_oldest {N : Nat} (w : Window N) (x : ℚ) :
    (update w x).2.oldest = (w.oldest + 1) % N := rfl

lemma update_snd_coef {N : Nat} (w : Window N) (x : ℚ) :
    (update w x).2.coef = w.coef := rfl

lemma update_fst_of_inlier {N : Nat} (w : Window N) (x : ℚ)
    (h : |x - w0val w x| ≤ w.coef * s0val w x) : (update w x).1 = x := by
  rw [update_fst, if_pos h]

lemma update_fst_of_outlier {N : Nat} (w : Window N) (x : ℚ)
    (h : ¬ |x - w0val w x| ≤ w.coef * s0val w x) : (update w x).1 = w0val w x := by
  rw [update_fst, if_neg h]

/-- The MAD is a sorted element of a list of absolute values (or the
default 0), hence nonnegative. -/
lemma s0val_nonneg {N : Nat} (w : Window N) (x : ℚ) : 0 ≤ s0val w x := by
  unfold s0val
  by_cases h :
      N / 2 < (sortAsc ((w.window.set w.oldest x).map (fun v => |v - w0val w x|))).length
  · rw [List.getD_eq_getElem _ _ h]
    have hmem := (sortAsc_perm _).mem_iff.mp (List.getElem_mem h)
    obtain ⟨v, _, hv⟩ := List.mem_map.mp hmem
    rw [← hv]
    exact abs_nonneg _
  · rw [List.getD_eq_default _ _ (Nat.le_of_not_lt h)]

lemma updateExtrap_fst {N : Nat} (w : Window N) (x : ℚ) :
    (updateExtrap w x).1 =
      if |x - w0val w x| ≤ w.coef * s0val w x then x
      else extrapolation (updateExtrap w x).2 := by
  simp only [updateExtrap, get_median, w0val, s0val]
  rw [sortAsc_map_sortAsc]

lemma updateExtrap_snd_coef {N : Nat} (w : Window N) (x : ℚ) :
    (updateExtrap w x).2.coef = w.coef := rfl

/-! Constant windows (warm-up consistency and idempotence). -/

lemma set_replicate_self (v : ℚ) : ∀ (n i : Nat), (List.replicate n v).set i v = List.replicate n v
  | 0, _ => rfl
  | n + 1, 0 => by simp [List.replicate_succ]
  | n + 1, i + 1 => by
    simp only [List.replicate_succ, List.set]
    rw [set_replicate_self v n i]

lemma sorted_replicate (n : Nat) (v : ℚ) : List.Sorted (· ≤ ·) (List.replicate n v) := by
  induction n with
  | zero => simp
  | succ n ih =>
    rw [List.replicate_succ, List.sorted_cons]
    exact ⟨fun b hb => le_of_eq (List.eq_of_mem_replicate hb).symm, ih⟩

lemma sortAsc_replicate (n : Nat) (v : ℚ) : sortAsc (List.replicate n v) = List.replicate n v :=
  List.Sorted.insertionSort_eq (sorted_replicate n v)

lemma getD_replicate (v : ℚ) {n i : Nat} (h : i < n) : (List.replicate n v).getD i 0 = v := by
  have hl : i < (List.replicate n v).length := by simpa using h
  rw [List.getD_eq_getElem _ _ hl, List.getElem_replicate]

lemma w0val_const {N : Nat} (v : ℚ) (w : Window N) (hw : w.window = List.replicate N v)
    (hN : 0 < N) : w0val w v = v := by
  unfold w0val
  rw [hw, set_replicate_self, sortAsc_replicate, getD_replicate v (Nat.div_lt_self hN one_lt_two)]

lemma s0val_const {N : Nat} (v : ℚ) (w : Window N) (hw : w.window = List.replicate N v)
    (hN : 0 < N) : s0val w v = 0 := by
  unfold s0val
  rw [hw, set_replicate_self, w0val_const v w hw hN]
  have h1 : (List.replicate N v).map (fun u => |u - v|) = List.replicate N 0 := by
    simp [List.map_replicate]
  rw [h1, sortAsc_replicate, getD_replicate 0 (Nat.div_lt_self hN one_lt_two)]

lemma update_const {N : Nat} (v : ℚ) (w : Window N) (hw : w.window = List.replicate N v)
    (hN : 0 < N) : (update w v).1 = v ∧ (update w v).2.window = List.replicate N v := by
  constructor
  · rw [update_fst, w0val_const v w hw hN, s0val_const v w hw hN]
    simp
  · rw [update_snd_window, hw, set_replicate_self]

lemma feedConst_const {N : Nat} (v : ℚ) (w : Window N) (hw : w.window = List.replicate N v)
    (hN : 0 < N) : ∀ k, (feedConst w v k).window = List.replicate N v
  | 0 => hw
  | k + 1 => (update_const v (feedConst w v k) (feedConst_const v w hw hN k) hN).2

/-! Membership of the returned value (median mode). -/

lemma mem_set_self (x : ℚ) (l : List ℚ) {i : Nat} (h : i < l.length) : x ∈ l.set i x := by
  rw [List.set_eq_take_cons_drop x h]
  exact List.mem_append.mpr (Or.inr (List.mem_cons_self _ _))

lemma w0val_mem {N : Nat} (w : Window N) (x : ℚ) (hlen : w.window.length = N) (hN : 0 < N) :
    w0val w x ∈ w.window.set w.oldest x := by
  unfold w0val
  have hlt : N / 2 < (sortAsc (w.window.set w.oldest x)).length := by
    rw [sortAsc_length, List.length_set, hlen]
    exact Nat.div_lt_self hN one_lt_two
  rw [List.getD_eq_getElem _ _ hlt]
  exact (sortAsc_perm _).mem_iff.mp (List.getElem_mem hlt)

lemma update_fst_mem {N : Nat} (w : Window N) (x : ℚ) (hlen : w.window.length = N)
    (hN : 0 < N) (hold : w.oldest < N) : (update w x).1 ∈ w.window.set w.oldest x := by
  rw [update_fst]
  by_cases h : |x - w0val w x| ≤ w.coef * s0val w x
  · rw [if_pos h]
    exact mem_set_self x w.window (by rw [hlen]; exact hold)
  · rw [if_neg h]
    exact w0val_mem w x hlen hN

/-! Circular-buffer occupancy: feeding samples writes consecutive
slots, and oldest advances mod N. -/

lemma take_set_succ (l : List ℚ) (n : Nat) (a : ℚ) (h : n < l.length) :
    (l.set n a).take (n + 1) = l.take n ++ [a] := by
  rw [List.set_eq_take_cons_drop a h, List.take_append_eq_append_take]
  have h1 : (List.take n l).length = n := by simp [List.length_take]; omega
  rw [List.take_take, h1]
  simp [Nat.min_def]

lemma drop_set_of_lt (l : List ℚ) (n m : Nat) (a : ℚ) (h : n < m) :
    (l.set n a).drop m = l.drop m := by
  rw [List.drop_set, if_pos h]

lemma feedList_slice {N : Nat} :
    ∀ (xs : List ℚ) (w : Window N), w.window.length = N → w.oldest < N →
      w.oldest + xs.length ≤ N →
      (feedList w xs).window =
        w.window.take w.oldest ++ xs ++ w.window.drop (w.oldest + xs.length) ∧
      (feedList w xs).oldest = (w.oldest + xs.length) % N
  | [], w, hlen, hold, _ => by
    refine ⟨?_, ?_⟩
    · simp [feedList, List.take_append_drop]
    · simp [feedList, Nat.mod_eq_of_lt hold]
  | x :: xs, w, hlen, hold, hle => by
    have hN : 0 < N := by omega
    have hlen1 : (update w x).2.window.length = N := by
      rw [update_snd_window, List.length_set, hlen]
    have holdlt : w.oldest < w.window.length := by rw [hlen]; exact hold
    have hlenxs : (x :: xs).length = xs.length + 1 := by simp
    rcases Nat.lt_or_ge (w.oldest + 1) N with h1 | h1
    · have hold1 : (update w x).2.oldest = w.oldest + 1 := by
        rw [update_snd_oldest, Nat.mod_eq_of_lt h1]
      have hle1 : (update w x).2.oldest + xs.length ≤ N := by
        rw [hold1]; rw [hlenxs] at hle; omega
      have ih := feedList_slice xs (update w x).2 hlen1 (hold1 ▸ h1) hle1
      rw [hold1] at ih
      rw [update_snd_window] at ih
      refine ⟨?_, ?_⟩
      · show (feedList (update w x).2 xs).window = _
        rw [ih.1, take_set_succ w.window w.oldest x holdlt,
          drop_set_of_lt w.window w.oldest (w.oldest + 1 + xs.length) x (by omega)]
        rw [hlenxs]
        have : w.oldest + (xs.length + 1) = w.oldest + 1 + xs.length := by omega
        rw [this]
        simp
      · show (feedList (update w x).2 xs).oldest = _
        rw [ih.2, hlenxs]
        have : w.oldest + (xs.length + 1) = w.oldest + 1 + xs.length := by omega
        rw [this]
    · -- the write fills the last slot: oldest + 1 = N, so xs must be empty
      have hoN : w.oldest + 1 = N := by omega
      have hxs : xs = [] := by
        rw [hlenxs] at hle
        have : xs.length = 0 := by omega
        exact List.length_eq_zero.mp this
      subst hxs
      refine ⟨?_, ?_⟩
      · show (feedList (update w x).2 []).window = _
        rw [feedList, update_snd_window, List.set_eq_take_cons_drop x holdlt]
        simp
      · show (feedList (update w x).2 []).oldest = _
        rw [feedList, update_snd_oldest]
        simp

/-! The extrapolation fallback agrees with textbook centered least
squares over the prior samples. -/

lemma sum_range_cast_rat (n : Nat) :
    (∑ i in Finset.range n, (i : ℚ)) = (n : ℚ) * ((n : ℚ) - 1) / 2 := by
  induction n with
  | zero => simp
  | succ n ih =>
    rw [Finset.sum_range_succ, ih]
    push_cast
    ring

lemma priorSamples_length {N : Nat} (w : Window N) : (priorSamples w).length = N - 1 := by
  simp [priorSamples]

lemma priorSamples_getD {N : Nat} (w : Window N) {i : Nat} (h : i < N - 1) :
    (priorSamples w).getD i 0 = w.window.getD ((w.oldest + i) % N) 0 := by
  unfold priorSamples
  have hl : i <
      ((List.range (N - 1)).map fun j => w.window.getD ((w.oldest + j) % N) 0).length := by
    simpa using h
  rw [List.getD_eq_getElem _ _ hl]
  simp

lemma extrapolation_eq_leastSquaresPredict {N : Nat} (w : Window N) (hN : 3 ≤ N) :
    extrapolation w = leastSquaresPredict (priorSamples w) := by
  have hlen : (priorSamples w).length = N - 1 := priorSamples_length w
  have h1 : ((N - 1 : Nat) : ℚ) = (N : ℚ) - 1 := by
    rw [Nat.cast_sub (by omega : 1 ≤ N)]
    norm_num
  have h2 : ((N - 2 : Nat) : ℚ) = (N : ℚ) - 2 := by
    rw [Nat.cast_sub (by omega : 2 ≤ N)]
    norm_num
  have h3 : (3 : ℚ) ≤ (N : ℚ) := by exact_mod_cast hN
  have hNz : ((N : ℚ) - 1) ≠ 0 := by linarith
  have hmux : (∑ i in Finset.range (N - 1), (i : ℚ)) / ((N - 1 : Nat) : ℚ) =
      regressionMuX N := by
    rw [sum_range_cast_rat, h1, regressionMuX, h2]
    field_simp
    ring
  have hgetD : ∀ i ∈ Finset.range (N - 1), (priorSamples w).getD i 0 =
      w.window.getD ((w.oldest + i) % N) 0 := by
    intro i hi
    exact priorSamples_getD w (Finset.mem_range.mp hi)
  have hsum1 : (∑ i in Finset.range (N - 1), (priorSamples w).getD i 0) =
      ∑ i in Finset.range (N - 1), w.window.getD ((w.oldest + i) % N) 0 :=
    Finset.sum_congr rfl hgetD
  have hsum2 : ∀ c M : ℚ,
      (∑ i in Finset.range (N - 1), (((i : ℚ) - c) * ((priorSamples w).getD i 0 - M))) =
      ∑ i in Finset.range (N - 1), (((i : ℚ) - c) * (w.window.getD ((w.oldest + i) % N) 0 - M)) := by
    intro c M
    refine Finset.sum_congr rfl ?_
    intro i hi
    rw [hgetD i hi]
  simp only [leastSquaresPredict, extrapolation, regressionDenom, hlen]
  rw [hmux, hsum1, hsum2]

/-! Claim theorems. -/

/-- C5: new(init_val, n_sigma) aborts (returns none in this embedding)
exactly when the capacity N is less than 3, never clamping or
defaulting; on success the sample buffer holds exactly N copies of
init_val and oldest = 0. -/
theorem new_requires_min_capacity : ∀ (N : Nat) (v s : ℚ),
    (Window.new N v s = none ↔ N < 3) ∧
    ∀ w : Window N, Window.new N v s = some w →
      w.window = List.replicate N v ∧ w.oldest = 0 := by
  intro N v s
  constructor
  · unfold Window.new
    by_cases h : 3 ≤ N
    · rw [if_pos h]
      simp
      omega
    · rw [if_neg h]
      simp
      omega
  · intro w hw
    unfold Window.new at hw
    by_cases h : 3 ≤ N
    · rw [if_pos h, Option.some.injEq] at hw
      rw [← hw]
      exact ⟨rfl, rfl⟩
    · rw [if_neg h] at hw
      exact absurd hw (by simp)

/-- C5 witness: at N = 5 the constructor succeeds with the stated
fields, and at N = 2 it returns none. -/
theorem new_requires_min_capacity_witness :
    ((⟨List.replicate 5 (7 : ℚ), List.replicate 5 0, 0, (1.4826 : ℚ) * 2⟩ : Window 5).window =
      List.replicate 5 (7 : ℚ) ∧
      (⟨List.replicate 5 (7 : ℚ), List.replicate 5 0, 0, (1.4826 : ℚ) * 2⟩ : Window 5).oldest = 0) ∧
    (Window.new 2 7 2 = none ↔ (2 : Nat) < 3) :=
  ⟨(new_requires_min_capacity 5 7 2).2
      ⟨List.replicate 5 (7 : ℚ), List.replicate 5 0, 0, (1.4826 : ℚ) * 2⟩
      (by simp [Window.new]),
    (new_requires_min_capacity 2 7 2).1⟩

/-- C7: for every window size N at least 3, the regression denominator
of the extrapolation fallback (the sum of squared centered x
coordinates over the N - 1 points) is nonzero, so the slope division
never divides by zero. -/
theorem regression_denom_nonzero : ∀ N : Nat, 3 ≤ N → regressionDenom N ≠ 0 := by
  intro N hN
  have hmux : regressionMuX N ≠ 0 := by
    unfold regressionMuX
    have h2 : ((N - 2 : Nat) : ℚ) = (N : ℚ) - 2 := by
      rw [Nat.cast_sub (by omega : 2 ≤ N)]
      norm_num
    rw [h2]
    have h3 : (3 : ℚ) ≤ (N : ℚ) := by exact_mod_cast hN
    intro hc
    have : (N : ℚ) = 2 := by linarith [mul_eq_zero.mp hc]
    nlinarith
  have hpos : 0 < regressionDenom N := by
    unfold regressionDenom
    apply Finset.sum_pos'
    · intro i _
      exact mul_self_nonneg _
    · refine ⟨0, Finset.mem_range.mpr (by omega), ?_⟩
      refine mul_self_pos.mpr ?_
      simpa using hmux
  exact ne_of_gt hpos

/-- C7 witness: the hypothesis holds at N = 5 and the denominator is
nonzero there. -/
theorem regression_denom_nonzero_witness : (3 : Nat) ≤ 5 ∧ regressionDenom 5 ≠ 0 :=
  ⟨by norm_num, regression_denom_nonzero 5 (by norm_num)⟩

/-- C8: the threshold coefficient stored by new equals 1.4826 times
n_sigma (exact arithmetic in this embedding), and no update call, in
either build, ever changes it. -/
theorem threshold_coefficient_value : ∀ (N : Nat) (v s : ℚ) (w : Window N),
    Window.new N v s = some w →
    w.coef = (1.4826 : ℚ) * s ∧
    ∀ (u : Window N) (x : ℚ), (update u x).2.coef = u.coef ∧ (updateExtrap u x).2.coef = u.coef := by
  intro N v s w hw
  refine ⟨?_, fun u x => ⟨update_snd_coef u x, updateExtrap_snd_coef u x⟩⟩
  unfold Window.new at hw
  by_cases h : 3 ≤ N
  · rw [if_pos h, Option.some.injEq] at hw
    rw [← hw]
  · rw [if_neg h] at hw
    exact absurd hw (by simp)

/-- C8 witness: instantiated at the constructed Window 3 with
n_sigma = 2. -/
theorem threshold_coefficient_value_witness :
    (⟨List.replicate 3 (0 : ℚ), List.replicate 3 0, 0, (1.4826 : ℚ) * 2⟩ : Window 3).coef =
      (1.4826 : ℚ) * 2 :=
  (threshold_coefficient_value 3 0 2
      ⟨List.replicate 3 (0 : ℚ), List.replicate 3 0, 0, (1.4826 : ℚ) * 2⟩
      (by simp [Window.new])).1

/-- C9: an update call mutates persistent state only by overwriting the
single slot at the old value of oldest and advancing oldest; the
threshold coefficient and every other sample slot are unchanged, and
the scratch workspace carries no information between calls (a call from
any incoming scratch contents produces the identical result and
state). -/
theorem update_frame : ∀ (N : Nat) (w : Window N) (l : List ℚ) (x : ℚ),
    update (Window.mk w.window l w.oldest w.coef) x = update w x ∧
    (update w x).2.window = w.window.set w.oldest x ∧
    (∀ i : Nat, i ≠ w.oldest → (update w x).2.window.getD i 0 = w.window.getD i 0) ∧
    (update w x).2.oldest = (w.oldest + 1) % N ∧
    (update w x).2.coef = w.coef := by
  intro N w l x
  refine ⟨rfl, update_snd_window w x, ?_, update_snd_oldest w x, update_snd_coef w x⟩
  intro i hi
  rw [update_snd_window, List.getD_eq_getElem?_getD, List.getD_eq_getElem?_getD,
    List.getElem?_set_ne (fun hc => hi hc.symm)]

/-- C9 witness: instantiated at a concrete window with scratch contents
[5, 5, 5]: the call agrees with the zero-scratch call, and slot 1 is
untouched by a write at slot 0. -/
theorem update_frame_witness :
    update (Window.mk ([1, 2, 3] : List ℚ) [5, 5, 5] 0 ((1.4826 : ℚ) * 3)) 9 =
      update (⟨[1, 2, 3], [0, 0, 0], 0, (1.4826 : ℚ) * 3⟩ : Window 3) 9 ∧
    (update (⟨[1, 2, 3], [0, 0, 0], 0, (1.4826 : ℚ) * 3⟩ : Window 3) 9).2.window.getD 1 0 =
      ([1, 2, 3] : List ℚ).getD 1 0 :=
  ⟨(update_frame 3 ⟨[1, 2, 3], [0, 0, 0], 0, (1.4826 : ℚ) * 3⟩ [5, 5, 5] 9).1,
    (update_frame 3 ⟨[1, 2, 3], [0, 0, 0], 0, (1.4826 : ℚ) * 3⟩ [5, 5, 5] 9).2.2.1 1
      (by norm_num)⟩

/-- C4: a window entirely filled with v (as holds immediately after
new(v, n_sigma), first conjunct) stays filled with v under update(v),
and update(v) returns v on every one of infinitely many repeated calls,
for every v and every coefficient (so every valid n_sigma). -/
theorem constant_input_fixed_point :
    (∀ (N : Nat) (v s : ℚ) (w : Window N),
      Window.new N v s = some w → w.window = List.replicate N v) ∧
    (∀ (N : Nat) (v : ℚ) (w : Window N), 1 ≤ N → w.window = List.replicate N v →
      ∀ k : Nat,
        (feedConst w v k).window = List.replicate N v ∧
        (update (feedConst w v k) v).1 = v) := by
  constructor
  · intro N v s w hw
    unfold Window.new at hw
    by_cases h : 3 ≤ N
    · rw [if_pos h, Option.some.injEq] at hw
      rw [← hw]
    · rw [if_neg h] at hw
      exact absurd hw (by simp)
  · intro N v w hN hw k
    have hwin := feedConst_const v w hw (by omega) k
    exact ⟨hwin, (update_const v (feedConst w v k) hwin (by omega)).1⟩

/-- C4 witness: a Window 3 filled with 7 still returns 7 on the fourth
repeated call. -/
theorem constant_input_fixed_point_witness :
    (feedConst (⟨List.replicate 3 (7 : ℚ), List.replicate 3 0, 0, (1.4826 : ℚ) * 3⟩ : Window 3)
        7 3).window = List.replicate 3 (7 : ℚ) ∧
    (update (feedConst (⟨List.replicate 3 (7 : ℚ), List.replicate 3 0, 0,
        (1.4826 : ℚ) * 3⟩ : Window 3) 7 3) 7).1 = 7 :=
  constant_input_fixed_point.2 3 7
    ⟨List.replicate 3 (7 : ℚ), List.replicate 3 0, 0, (1.4826 : ℚ) * 3⟩
    (by norm_num) rfl 3

/-- C6: oldest stays in [0, N) and advances by exactly 1 mod N on every
update (so the unchecked write is in bounds), and starting from a
freshly constructed window, after exactly N updates the buffer consists
exactly of the N fed samples (every seeded init_val overwritten exactly
once) with oldest back at 0. -/
theorem oldest_roundtrip :
    (∀ (N : Nat) (w : Window N) (x : ℚ), 0 < N →
      (update w x).2.oldest = (w.oldest + 1) % N ∧ (update w x).2.oldest < N) ∧
    (∀ (N : Nat) (v s : ℚ) (w : Window N) (xs : List ℚ),
      Window.new N v s = some w → xs.length = N →
      (feedList w xs).window = xs ∧ (feedList w xs).oldest = 0) := by
  constructor
  · intro N w x hN
    refine ⟨update_snd_oldest w x, ?_⟩
    rw [update_snd_oldest]
    exact Nat.mod_lt _ hN
  · intro N v s w xs hw hxs
    have hfields : w.window = List.replicate N v ∧ w.oldest = 0 ∧ 3 ≤ N := by
      unfold Window.new at hw
      by_cases h : 3 ≤ N
      · rw [if_pos h, Option.some.injEq] at hw
        rw [← hw]
        exact ⟨rfl, rfl, h⟩
      · rw [if_neg h] at hw
        exact absurd hw (by simp)
    have hlen : w.window.length = N := by rw [hfields.1, List.length_replicate]
    have hslice := feedList_slice xs w hlen
      (by rw [hfields.2.1]; omega) (by rw [hfields.2.1, hxs]; omega)
    rw [hfields.2.1] at hslice
    refine ⟨?_, ?_⟩
    · rw [hslice.1]
      rw [hxs]
      simp [List.drop_eq_nil_of_le (le_of_eq hlen)]
    · rw [hslice.2, hxs]
      simp

/-- C6 witness: instantiated at a freshly constructed Window 3 fed
three samples: the buffer is exactly those samples and oldest is back
to 0; plus the per-call advance at that window. -/
theorem oldest_roundtrip_witness :
    ((feedList (⟨List.replicate 3 (0 : ℚ), List.replicate 3 0, 0, (1.4826 : ℚ) * 3⟩ : Window 3)
        [4, 5, 6]).window = [4, 5, 6] ∧
      (feedList (⟨List.replicate 3 (0 : ℚ), List.replicate 3 0, 0, (1.4826 : ℚ) * 3⟩ : Window 3)
        [4, 5, 6]).oldest = 0) ∧
    (update (⟨List.replicate 3 (0 : ℚ), List.replicate 3 0, 0, (1.4826 : ℚ) * 3⟩ : Window 3)
        4).2.oldest = (0 + 1) % 3 :=
  ⟨oldest_roundtrip.2 3 0 3
      ⟨List.replicate 3 (0 : ℚ), List.replicate 3 0, 0, (1.4826 : ℚ) * 3⟩
      [4, 5, 6] (by simp [Window.new]) (by norm_num),
    (oldest_roundtrip.1 3
      ⟨List.replicate 3 (0 : ℚ), List.replicate 3 0, 0, (1.4826 : ℚ) * 3⟩
      4 (by norm_num)).1⟩

/-- C1 (amended): for every window state whose threshold coefficient is
nonnegative (equivalently, whenever n_sigma is nonnegative, as the
specification expects) and every input x, update(x) returns x
unchanged iff |x - w0| <= threshold_coefficient * s0.  Without that
hypothesis only the forward direction survives; see the
counterexample. -/
theorem inlier_passthrough_iff : ∀ (N : Nat) (w : Window N) (x : ℚ), 0 ≤ w.coef →
    ((update w x).1 = x ↔ |x - w0val w x| ≤ w.coef * s0val w x) := by
  intro N w x hcoef
  constructor
  · intro hret
    by_contra hout
    rw [update_fst_of_outlier w x hout] at hret
    apply hout
    rw [hret, sub_self, abs_zero]
    exact mul_nonneg hcoef (s0val_nonneg w x)
  · exact update_fst_of_inlier w x

/-- C1 witness: at a Window 3 full of zeros with n_sigma = 3, feeding
x = 0: both sides of the equivalence hold. -/
theorem inlier_passthrough_iff_witness :
    (0 : ℚ) ≤ (⟨List.replicate 3 (0 : ℚ), List.replicate 3 0, 0,
        (1.4826 : ℚ) * 3⟩ : Window 3).coef ∧
    ((update (⟨List.replicate 3 (0 : ℚ), List.replicate 3 0, 0,
        (1.4826 : ℚ) * 3⟩ : Window 3) 0).1 = 0 ↔
      |(0 : ℚ) - w0val (⟨List.replicate 3 (0 : ℚ), List.replicate 3 0, 0,
        (1.4826 : ℚ) * 3⟩ : Window 3) 0| ≤
        (⟨List.replicate 3 (0 : ℚ), List.replicate 3 0, 0,
          (1.4826 : ℚ) * 3⟩ : Window 3).coef *
        s0val (⟨List.replicate 3 (0 : ℚ), List.replicate 3 0, 0,
          (1.4826 : ℚ) * 3⟩ : Window 3) 0) :=
  ⟨by norm_num,
    inlier_passthrough_iff 3
      ⟨List.replicate 3 (0 : ℚ), List.replicate 3 0, 0, (1.4826 : ℚ) * 3⟩ 0 (by norm_num)⟩

/-- C1 counterexample: constructing with n_sigma = -1 (threshold
coefficient 1.4826 * (-1) < 0) and feeding -1 then 1, the next input
x = 0 fails the inlier test (s0 = 1, so the bound is negative), yet
median substitution returns w0 = 0 = x: update returns x unchanged
while the claimed equivalent condition is false. -/
theorem inlier_passthrough_iff_counterexample :
    Window.new 3 9 (-1) =
      some (⟨List.replicate 3 9, List.replicate 3 0, 0, (1.4826 : ℚ) * (-1)⟩ : Window 3) ∧
    (update (feedList (⟨List.replicate 3 9, List.replicate 3 0, 0,
        (1.4826 : ℚ) * (-1)⟩ : Window 3) [-1, 1]) 0).1 = 0 ∧
    ¬ (|(0 : ℚ) - w0val (feedList (⟨List.replicate 3 9, List.replicate 3 0, 0,
          (1.4826 : ℚ) * (-1)⟩ : Window 3) [-1, 1]) 0| ≤
        (feedList (⟨List.replicate 3 9, List.replicate 3 0, 0,
          (1.4826 : ℚ) * (-1)⟩ : Window 3) [-1, 1]).coef *
        s0val (feedList (⟨List.replicate 3 9, List.replicate 3 0, 0,
          (1.4826 : ℚ) * (-1)⟩ : Window 3) [-1, 1]) 0) := by
  refine ⟨by simp [Window.new], ?_, ?_⟩
  · norm_num [feedList, update, get_median, sortAsc, w0val, s0val, List.insertionSort,
      List.orderedInsert, List.replicate]
  · norm_num [feedList, update, get_median, sortAsc, w0val, s0val, List.insertionSort,
      List.orderedInsert, List.replicate]

/-- C2: in the default build, an outlier call returns the window
median, the element at index N / 2 of the ascending sort of the
post-write window; and concretely, a Window 5 constructed from
new(0, 3) and fed four zeros returns 0 on the fifth call with input
1000. -/
theorem outlier_returns_median :
    (∀ (N : Nat) (w : Window N) (x : ℚ),
      ¬ |x - w0val w x| ≤ w.coef * s0val w x → (update w x).1 = w0val w x) ∧
    Window.new 5 0 3 =
      some (⟨List.replicate 5 0, List.replicate 5 0, 0, (1.4826 : ℚ) * 3⟩ : Window 5) ∧
    (update (feedList (⟨List.replicate 5 0, List.replicate 5 0, 0,
        (1.4826 : ℚ) * 3⟩ : Window 5) [0, 0, 0, 0]) 1000).1 = 0 := by
  refine ⟨fun N w x h => update_fst_of_outlier w x h, by simp [Window.new], ?_⟩
  norm_num [feedList, update, get_median, sortAsc, List.insertionSort, List.orderedInsert,
    List.replicate]

/-- C2 witness: a zero window with oldest = 4 and input 1000 is an
outlier call, and the returned value is the window median. -/
theorem outlier_returns_median_witness :
    (update (⟨List.replicate 5 (0 : ℚ), List.replicate 5 0, 4,
        (1.4826 : ℚ) * 3⟩ : Window 5) 1000).1 =
      w0val (⟨List.replicate 5 (0 : ℚ), List.replicate 5 0, 4,
        (1.4826 : ℚ) * 3⟩ : Window 5) 1000 :=
  outlier_returns_median.1 5
    ⟨List.replicate 5 (0 : ℚ), List.replicate 5 0, 4, (1.4826 : ℚ) * 3⟩ 1000
    (by norm_num [w0val, s0val, sortAsc, List.insertionSort, List.orderedInsert,
      List.replicate])

/-- C3: in the extrapolation build, an outlier call returns the
least-squares regression line over the N - 1 prior samples (read
oldest-first at x coordinates 0..N-2), evaluated at x = N - 1; and
concretely, with N = 5 and prior samples 0, 1, 2, 3 a far-off outlier
is replaced by exactly 4. -/
theorem outlier_extrapolation_forecast :
    (∀ (N : Nat) (w : Window N) (x : ℚ), 3 ≤ N →
      ¬ |x - w0val w x| ≤ w.coef * s0val w x →
      (updateExtrap w x).1 = leastSquaresPredict (priorSamples (updateExtrap w x).2)) ∧
    (updateExtrap (feedListExtrap (⟨List.replicate 5 0, List.replicate 5 0, 0,
        (1.4826 : ℚ) * 3⟩ : Window 5) [0, 1, 2, 3]) 1000).1 = 4 := by
  constructor
  · intro N w x hN hout
    rw [updateExtrap_fst, if_neg hout]
    exact extrapolation_eq_leastSquaresPredict (updateExtrap w x).2 hN
  · norm_num [feedListExtrap, updateExtrap, extrapolation, regressionMuX, regressionDenom,
      get_median, sortAsc, List.insertionSort, List.orderedInsert, List.replicate,
      Finset.sum_range_succ]

/-- C3 witness: the general statement instantiated at the concrete
ramp 0, 1, 2, 3 followed by the outlier 1000. -/
theorem outlier_extrapolation_forecast_witness :
    (updateExtrap (feedListExtrap (⟨List.replicate 5 (0 : ℚ), List.replicate 5 0, 0,
        (1.4826 : ℚ) * 3⟩ : Window 5) [0, 1, 2, 3]) 1000).1 =
      leastSquaresPredict (priorSamples (updateExtrap (feedListExtrap
        (⟨List.replicate 5 (0 : ℚ), List.replicate 5 0, 0,
          (1.4826 : ℚ) * 3⟩ : Window 5) [0, 1, 2, 3]) 1000).2) :=
  outlier_extrapolation_forecast.1 5
    (feedListExtrap (⟨List.replicate 5 (0 : ℚ), List.replicate 5 0, 0,
      (1.4826 : ℚ) * 3⟩ : Window 5) [0, 1, 2, 3]) 1000
    (by norm_num)
    (by norm_num [feedListExtrap, updateExtrap, extrapolation, regressionMuX,
      regressionDenom, get_median, sortAsc, w0val, s0val, List.insertionSort,
      List.orderedInsert, List.replicate, Finset.sum_range_succ])

/-- C10: in the default build the returned value is either x itself or
the N / 2-th order statistic, is an element of the post-write window
contents, and hence lies between the minimum and the maximum of the
stored samples. -/
theorem output_within_window : ∀ (N : Nat) (w : Window N) (x : ℚ),
    w.window.length = N → 0 < N → w.oldest < N →
    ((update w x).1 = x ∨ (update w x).1 = w0val w x) ∧
    (update w x).1 ∈ (update w x).2.window ∧
    (update w x).2.window.minimum ≤ ((update w x).1 : WithTop ℚ) ∧
    ((update w x).1 : WithBot ℚ) ≤ (update w x).2.window.maximum := by
  intro N w x hlen hN hold
  have hmem : (update w x).1 ∈ (update w x).2.window := by
    rw [update_snd_window]
    exact update_fst_mem w x hlen hN hold
  refine ⟨?_, hmem, List.minimum_le_of_mem' hmem, List.le_maximum_of_mem' hmem⟩
  rw [update_fst]
  by_cases h : |x - w0val w x| ≤ w.coef * s0val w x
  · exact Or.inl (if_pos h)
  · exact Or.inr (if_neg h)

/-- C10 witness: instantiated at the window [1, 2, 3] with input 9. -/
theorem output_within_window_witness :
    ((update (⟨[1, 2, 3], [0, 0, 0], 0, (1.4826 : ℚ) * 3⟩ : Window 3) 9).1 = 9 ∨
      (update (⟨[1, 2, 3], [0, 0, 0], 0, (1.4826 : ℚ) * 3⟩ : Window 3) 9).1 =
        w0val (⟨[1, 2, 3], [0, 0, 0], 0, (1.4826 : ℚ) * 3⟩ : Window 3) 9) ∧
    (update (⟨[1, 2, 3], [0, 0, 0], 0, (1.4826 : ℚ) * 3⟩ : Window 3) 9).1 ∈
      (update (⟨[1, 2, 3], [0, 0, 0], 0, (1.4826 : ℚ) * 3⟩ : Window 3) 9).2.window ∧
    (update (⟨[1, 2, 3], [0, 0, 0], 0, (1.4826 : ℚ) * 3⟩ : Window 3) 9).2.window.minimum ≤
      ((update (⟨[1, 2, 3], [0, 0, 0], 0, (1.4826 : ℚ) * 3⟩ : Window 3) 9).1 : WithTop ℚ) ∧
    ((update (⟨[1, 2, 3], [0, 0, 0], 0, (1.4826 : ℚ) * 3⟩ : Window 3) 9).1 : WithBot ℚ) ≤
      (update (⟨[1, 2, 3], [0, 0, 0], 0, (1.4826 : ℚ) * 3⟩ : Window 3) 9).2.window.maximum :=
  output_within_window 3 ⟨[1, 2, 3], [0, 0, 0], 0, (1.4826 : ℚ) * 3⟩ 9
    (by norm_num) (by norm_num) (by norm_num)

end Hampel
